import Mathlib

/-!
Verification of the scripterio test-engine core.

The repository's public surface is `src/index.mjs`, a thin wrapper that
delegates to `./core/context.mjs` (registration tree + execution engine)
and `./core/expect.mjs` (matcher engine).  Only `src/index.mjs` is present
in the source tree; the two core modules are modelled from the spec
(definitions so marked), while the wrapper layer is embedded directly
from `src/index.mjs`.
-/

namespace Scripterio

/-- The payload of a JavaScript throw / promise rejection, as observed by
the engine: an opaque error value, modelled by its message. -/
structure Err where
  msg : String
deriving DecidableEq, Repr

/-- Modelled from the spec (§3, `SuiteNode.hooks` / `TestNode.body`, the
core modules `core/context.mjs` are not in the source tree): a hook or
test-body callback over fixture state `σ`; it may mutate the state and may
throw or reject (returning `some` error). -/
def Callback (σ : Type) : Type := σ → σ × Option Err

/-- Spec §3: `mode` enum of SuiteNode / TestNode. -/
inductive Mode where
  | Normal
  | Skipped
deriving DecidableEq, Repr

/-- Modelled from the spec (§3 SuiteNode / TestNode; `core/context.mjs` is
not in the source tree): the registration tree.  A suite owns its four
hook lists and an ordered children sequence; a test owns its body. -/
inductive Tree (σ : Type) where
  | suite (name : String) (mode : Mode)
      (beforeAllHooks afterAllHooks beforeEachHooks afterEachHooks : List (Callback σ))
      (children : List (Tree σ))
  | test (name : String) (mode : Mode) (body : Callback σ)

/-- Spec §3: TestResult status enum. -/
inductive Status where
  | Passed
  | Failed
  | Skipped
deriving DecidableEq, Repr

/-- Spec §3: output of execution for one TestNode (`durationMs` omitted:
wall-clock time is an external effect with no logical content). -/
structure TestResult where
  name : String
  status : Status
  error : Option Err
deriving DecidableEq, Repr

/-- Fully-qualified test name: suite path + test name (spec §3). -/
def qualify (path : List String) (name : String) : String :=
  String.intercalate " > " (path ++ [name])

end Scripterio

namespace Scripterio

/-! ### Matcher engine values

Spec §9 recommends representing matcher subjects as a closed variant over
the kinds deep-equality distinguishes. -/

/-- A JavaScript number as far as the matchers observe it: NaN or an
ordinary (exact) value. -/
inductive JsNum where
  | nan
  | int (i : Int)
deriving DecidableEq, Repr

/-- Modelled from the spec (§4.3, `core/expect.mjs` is not in the source
tree): the closed variant of JavaScript values the matcher engine
inspects. -/
inductive JsVal where
  | undef
  | null
  | bool (b : Bool)
  | num (n : JsNum)
  | str (s : String)
  | arr (elems : List JsVal)
  | obj (fields : List (String × JsVal))

/-- `true` on the non-composite (primitive) kinds of `JsVal`. -/
def JsVal.primitive : JsVal → Bool
  | .arr _ => false
  | .obj _ => false
  | _ => true

mutual
/-- Modelled from the spec (§4.3 deep-equality, `core/expect.mjs` is not
in the source tree): two values are deep-equal if both are the same
primitive value under value equality (NaN equal to NaN), or both are
composites of the same kind, same length, with every corresponding
element/key pair recursively deep-equal. -/
def deepEqual : JsVal → JsVal → Bool
  | .undef, .undef => true
  | .null, .null => true
  | .bool a, .bool b => a == b
  | .num a, .num b => a == b
  | .str a, .str b => a == b
  | .arr xs, .arr ys => deepEqualList xs ys
  | .obj xs, .obj ys => deepEqualFields xs ys
  | _, _ => false

/-- Elementwise deep-equality of two element lists of the same length. -/
def deepEqualList : List JsVal → List JsVal → Bool
  | [], [] => true
  | x :: xs, y :: ys => deepEqual x y && deepEqualList xs ys
  | _, _ => false

/-- Keyed deep-equality of two field lists of the same length. -/
def deepEqualFields : List (String × JsVal) → List (String × JsVal) → Bool
  | [], [] => true
  | (k, v) :: xs, (l, w) :: ys => k == l && deepEqual v w && deepEqualFields xs ys
  | _, _ => false
end

/-- Modelled from the spec (§4.3 matcher table, `core/expect.mjs` is not
in the source tree): the pass condition of `expect(received).toBeEqual(expected)`. -/
def toBeEqual (received expected : JsVal) : Bool :=
  deepEqual received expected

/-- `sub.isPrefixOf l`-style check used by `strIncludes`. -/
def segAt : List Char → List Char → Bool
  | [], _ => true
  | _ :: _, [] => false
  | a :: as, b :: bs => a == b && segAt as bs

/-- Does the character list `l` contain `sub` as a contiguous segment? -/
def hasSeg (sub : List Char) : List Char → Bool
  | [] => sub.isEmpty
  | c :: cs => segAt sub (c :: cs) || hasSeg sub cs

/-- Substring containment on strings (JavaScript `String.prototype.includes`). -/
def strIncludes (s sub : String) : Bool :=
  hasSeg sub.data s.data

/-- Modelled from the spec (§4.3 matcher table, `core/expect.mjs` is not
in the source tree): the pass condition of `expect(received).toContain(item)` —
received is a sequence containing an element deep-equal to item, or
received is a string containing item as a substring. -/
def toContain (received item : JsVal) : Bool :=
  match received with
  | .arr xs => xs.any (fun x => deepEqual x item)
  | .str s =>
    match item with
    | .str sub => strIncludes s sub
    | _ => false
  | _ => false

end Scripterio

namespace Scripterio

/-! ### Execution engine

Modelled from the spec §4.2 (the execution engine lives in
`core/context.mjs`, which is not in the source tree). -/

/-- Run callbacks sequentially, stopping at the first throw/reject
(spec §4.2 step 2: "remaining hooks ... are skipped"). -/
def runSeq {σ : Type} : List (Callback σ) → σ → σ × Option Err
  | [], s => (s, none)
  | cb :: rest, s =>
    match cb s with
    | (s1, none) => runSeq rest s1
    | (s1, some e) => (s1, some e)

/-- Run all callbacks best-effort (spec §4.2 step 4: cleanup hooks all run
even when one fails), keeping the first error raised. -/
def runAll {σ : Type} : List (Callback σ) → σ → σ × Option Err
  | [], s => (s, none)
  | cb :: rest, s =>
    let p := cb s
    let q := runAll rest p.1
    (q.1, p.2.orElse (fun _ => q.2))

/-- Modelled from the spec (§4.2 step 3): run one test.  `beStack` holds
every ancestor's `beforeEach` hooks outermost-to-innermost, `aeStack`
every ancestor's `afterEach` hooks innermost-to-outermost.  Skipped mode
bypasses all hooks; otherwise the `beforeEach` chain and the body run
sequentially (aborting on the first error), then the `afterEach` chain
runs best-effort, and the first error wins. -/
def runTest {σ : Type} (qname : String) (mode : Mode)
    (beStack aeStack : List (Callback σ)) (body : Callback σ) (s : σ) :
    σ × TestResult :=
  match mode with
  | .Skipped => (s, ⟨qname, .Skipped, none⟩)
  | .Normal =>
    let p := runSeq (beStack ++ [body]) s
    let q := runAll aeStack p.1
    match p.2.orElse (fun _ => q.2) with
    | none => (q.1, ⟨qname, .Passed, none⟩)
    | some e => (q.1, ⟨qname, .Failed, some e⟩)

mutual
/-- The Skipped TestResult emitted for every test in a subtree when an
enclosing suite is skipped (spec §4.2 step 1). -/
def skippedResults {σ : Type} (path : List String) : Tree σ → List TestResult
  | .test name _ _ => [⟨qualify path name, .Skipped, none⟩]
  | .suite name _ _ _ _ _ children => skippedResultsList (path ++ [name]) children

/-- `skippedResults` over a children list, in declaration order. -/
def skippedResultsList {σ : Type} (path : List String) : List (Tree σ) → List TestResult
  | [] => []
  | c :: cs => skippedResults path c ++ skippedResultsList path cs
end

mutual
/-- The Failed TestResult emitted for every test in a subtree when an
enclosing suite's `beforeAll` hook threw `e` (spec §4.2 step 2). -/
def failedResults {σ : Type} (e : Err) (path : List String) : Tree σ → List TestResult
  | .test name _ _ => [⟨qualify path name, .Failed, some e⟩]
  | .suite name _ _ _ _ _ children => failedResultsList e (path ++ [name]) children

/-- `failedResults` over a children list, in declaration order. -/
def failedResultsList {σ : Type} (e : Err) (path : List String) : List (Tree σ) → List TestResult
  | [] => []
  | c :: cs => failedResults e path c ++ failedResultsList e path cs
end

mutual
/-- Modelled from the spec (§4.2 state machine, `core/context.mjs` is not
in the source tree): execute one tree node.  `path` is the enclosing suite
path, `beStack`/`aeStack` the accumulated ancestor `beforeEach` (outermost
first) and `afterEach` (innermost first) hooks. -/
def runTree {σ : Type} (path : List String) (beStack aeStack : List (Callback σ)) :
    Tree σ → σ → σ × List TestResult
  | .test name mode body, s =>
    let p := runTest (qualify path name) mode beStack aeStack body s
    (p.1, [p.2])
  | .suite name mode ba aa be ae children, s =>
    match mode with
    | .Skipped =>
      (s, skippedResults path (.suite name mode ba aa be ae children))
    | .Normal =>
      match runSeq ba s with
      | (s1, some e) =>
        let q := runAll aa s1
        (q.1, failedResultsList e (path ++ [name]) children)
      | (s1, none) =>
        let p := runList (path ++ [name]) (beStack ++ be) (ae ++ aeStack) children s1
        let q := runAll aa p.1
        (q.1, p.2)

/-- Execute a children list in declaration order, threading fixture state
and concatenating results (spec §4.2 step 3). -/
def runList {σ : Type} (path : List String) (beStack aeStack : List (Callback σ)) :
    List (Tree σ) → σ → σ × List TestResult
  | [], s => (s, [])
  | c :: cs, s =>
    let p := runTree path beStack aeStack c s
    let q := runList path beStack aeStack cs p.1
    (q.1, p.2 ++ q.2)
end

/-- Run a whole declared tree from the root (empty path, no inherited
hooks): the engine entry point a runner collaborator invokes (spec §6). -/
def runRoot {σ : Type} (t : Tree σ) (s : σ) : σ × List TestResult :=
  runTree [] [] [] t s

mutual
/-- Number of tests in a subtree (each must yield exactly one TestResult). -/
def countTests {σ : Type} : Tree σ → Nat
  | .test _ _ _ => 1
  | .suite _ _ _ _ _ _ children => countTestsList children

/-- `countTests` summed over a children list. -/
def countTestsList {σ : Type} : List (Tree σ) → Nat
  | [] => 0
  | c :: cs => countTests c + countTestsList cs
end

mutual
/-- Fully-qualified names of every test in a subtree, in declaration order. -/
def testNames {σ : Type} (path : List String) : Tree σ → List String
  | .test name _ _ => [qualify path name]
  | .suite name _ _ _ _ _ children => testNamesList (path ++ [name]) children

/-- `testNames` over a children list. -/
def testNamesList {σ : Type} (path : List String) : List (Tree σ) → List String
  | [] => []
  | c :: cs => testNames path c ++ testNamesList path cs
end

end Scripterio

namespace Scripterio

/-! ### Auxiliary predicates and spec-side characterizations -/

/-- Apply a callback for its state effect only. -/
def applyCb {σ : Type} (s : σ) (cb : Callback σ) : σ :=
  (cb s).1

/-- A callback that never throws, from any state. -/
def CbOk {σ : Type} (cb : Callback σ) : Prop :=
  ∀ s, (cb s).2 = none

/-- A callback whose throw/reject outcome does not depend on the incoming
fixture state (the "no shared mutable fixture state" hypothesis of the
spec's idempotence property, §8). -/
def ErrDet {σ : Type} (cb : Callback σ) : Prop :=
  ∀ s t, (cb s).2 = (cb t).2

mutual
/-- Every callback in the tree is `ErrDet`. -/
def TreeDet {σ : Type} : Tree σ → Prop
  | .test _ _ body => ErrDet body
  | .suite _ _ ba aa be ae children =>
    (∀ cb ∈ ba, ErrDet cb) ∧ (∀ cb ∈ aa, ErrDet cb) ∧
    (∀ cb ∈ be, ErrDet cb) ∧ (∀ cb ∈ ae, ErrDet cb) ∧ TreeDetList children

/-- `TreeDet` over a children list. -/
def TreeDetList {σ : Type} : List (Tree σ) → Prop
  | [] => True
  | c :: cs => TreeDet c ∧ TreeDetList cs
end

/-- The spec's wording of deep-equality (§4.3): same primitive value under
value equality (NaN equal to NaN is built into `JsNum`), or composites of
the same kind with the same length whose corresponding element/key pairs
are recursively deep-equal. -/
def SpecEq (a b : JsVal) : Prop :=
  (a.primitive = true ∧ b.primitive = true ∧ a = b)
  ∨ (∃ xs ys, a = .arr xs ∧ b = .arr ys ∧ xs.length = ys.length ∧
       ∀ p ∈ xs.zip ys, deepEqual p.1 p.2 = true)
  ∨ (∃ xs ys, a = .obj xs ∧ b = .obj ys ∧ xs.length = ys.length ∧
       ∀ p ∈ xs.zip ys, p.1.1 = p.2.1 ∧ deepEqual p.1.2 p.2.2 = true)

/-- The spec's wording of the `toContain` pass condition (§4.3): received
is a sequence with an element deep-equal to item, or received is a string
containing item as a substring. -/
def SpecContain (received item : JsVal) : Prop :=
  (∃ xs, received = .arr xs ∧ ∃ x ∈ xs, deepEqual x item = true)
  ∨ (∃ s sub, received = .str s ∧ item = .str sub ∧
       ∃ pre post, s.data = pre ++ sub.data ++ post)

/-! ### Registration-time model and the `src/index.mjs` wrapper layer -/

/-- Modelled from the spec (§3 ProcessState): one suite under
construction on the registration stack. -/
structure Frame (σ : Type) where
  name : String
  mode : Mode
  beforeAllHooks : List (Callback σ)
  afterAllHooks : List (Callback σ)
  beforeEachHooks : List (Callback σ)
  afterEachHooks : List (Callback σ)
  children : List (Tree σ)

/-- Modelled from the spec (§3 ProcessState): the registration-time
state — the suite currently being built plus the stack of enclosing
suites. -/
structure RegState (σ : Type) where
  cur : Frame σ
  outer : List (Frame σ)

/-- Modelled from the spec: `core.skip` of `core/context.mjs` (the file is
not in the source tree).  Per §4.1 it appends a node with `mode = Skipped`
to the current suite's children; no callback is invoked and the stored
body is inert. -/
def coreSkip {σ : Type} (name : String) (st : RegState σ) : RegState σ :=
  { st with cur := { st.cur with
      children := st.cur.children ++ [.test name .Skipped (fun s => (s, none))] } }

/-- Embedded from `src/index.mjs` line 45:
`describe.skip = (name) => core.skip(name)`.
The JavaScript function binds only `name`; any options object or callback
a caller supplies is silently discarded (modelled as ignored arguments of
arbitrary type), and the call delegates to the core skip operation. -/
def describeSkip {ρ : Type} {α β : Type} (coreSkipOp : String → ρ → ρ)
    (name : String) (optionsOrBody : α) (body : β) (st : ρ) : ρ :=
  coreSkipOp name st

/-- Embedded from `src/index.mjs` line 85:
`test.skip = (name) => core.skip(name)`.
Identical shape to `describeSkip`: only `name` is bound and forwarded. -/
def testSkip {ρ : Type} {α β : Type} (coreSkipOp : String → ρ → ρ)
    (name : String) (optionsOrBody : α) (body : β) (st : ρ) : ρ :=
  coreSkipOp name st

/-! ### Concrete fixtures used by witnesses and demonstration conjuncts -/

/-- Append a tag to a log-state, never throwing. -/
def pushTag (tag : String) : Callback (List String) :=
  fun s => (s ++ [tag], none)

/-- Append a tag to a log-state, then throw an error carrying the tag. -/
def throwTag (tag : String) : Callback (List String) :=
  fun s => (s ++ [tag], some ⟨tag⟩)

/-- Spec §8's hook-ordering scenario: Outer{beforeEach "O", afterEach "o"}
nesting Inner{beforeEach "I", afterEach "i"} around one test logging "T". -/
def hookOrderDemo : Tree (List String) :=
  .suite "Outer" .Normal [] [] [pushTag "O"] [pushTag "o"]
    [ .suite "Inner" .Normal [] [] [pushTag "I"] [pushTag "i"]
        [ .test "t" .Normal (pushTag "T") ] ]

/-- A suite whose `beforeAll` throws, with two tests and an `afterAll`
cleanup hook. -/
def beforeAllDemo : Tree (List String) :=
  .suite "S" .Normal [throwTag "boom", pushTag "neverRuns"] [pushTag "cleanup"] [] []
    [ .test "a" .Normal (pushTag "A"), .test "b" .Normal (pushTag "B") ]

/-- A sibling suite declared after `beforeAllDemo`, expected to run
normally. -/
def siblingDemo : Tree (List String) :=
  .suite "T" .Normal [] [] [] [] [ .test "c" .Normal (pushTag "C") ]

/-- A root whose first test throws, followed by a passing sibling test and
a cousin suite with a passing test. -/
def isolationDemo : Tree (List String) :=
  .suite "root" .Normal [] [] [] []
    [ .test "bad" .Normal (throwTag "boom"),
      .test "good" .Normal (pushTag "G"),
      .suite "cousin" .Normal [] [] [] [] [ .test "c" .Normal (pushTag "C") ] ]

/-- A deterministic tree (state-independent error behavior) used to
witness idempotence. -/
def detDemo : Tree (List String) :=
  .suite "root" .Normal [pushTag "BA"] [pushTag "AA"] [pushTag "BE"] [pushTag "AE"]
    [ .test "ok" .Normal (pushTag "T"),
      .test "fail" .Normal (throwTag "boom"),
      .test "skipped" .Skipped (pushTag "never") ]

/-- The spec §8 deep-equality example `{a:1, b:[1,2,3]}`. -/
def objDemoA : JsVal :=
  .obj [("a", .num (.int 1)), ("b", .arr [.num (.int 1), .num (.int 2), .num (.int 3)])]

/-- A structurally identical value built independently of `objDemoA`. -/
def objDemoB : JsVal :=
  .obj [("a", .num (.int 1)), ("b", .arr [.num (.int 1), .num (.int 2), .num (.int 3)])]

/-- `objDemoA` with one nested element changed (`2` ↦ `9`). -/
def objDemoC : JsVal :=
  .obj [("a", .num (.int 1)), ("b", .arr [.num (.int 1), .num (.int 9), .num (.int 3)])]

end Scripterio

namespace Scripterio

/-! ### Matcher-engine lemmas -/

theorem deepEqualList_iff : ∀ xs ys, deepEqualList xs ys = true ↔
    (xs.length = ys.length ∧ ∀ p ∈ xs.zip ys, deepEqual p.1 p.2 = true)
  | [], [] => by simp [deepEqualList]
  | [], _ :: _ => by simp [deepEqualList]
  | _ :: _, [] => by simp [deepEqualList]
  | x :: xs, y :: ys => by
    simp [deepEqualList, deepEqualList_iff xs ys]
    tauto

theorem deepEqualFields_iff : ∀ xs ys, deepEqualFields xs ys = true ↔
    (xs.length = ys.length ∧ ∀ p ∈ xs.zip ys, p.1.1 = p.2.1 ∧ deepEqual p.1.2 p.2.2 = true)
  | [], [] => by simp [deepEqualFields]
  | [], _ :: _ => by simp [deepEqualFields]
  | _ :: _, [] => by simp [deepEqualFields]
  | (k, v) :: xs, (l, w) :: ys => by
    simp [deepEqualFields, deepEqualFields_iff xs ys]
    tauto

theorem segAt_iff : ∀ (sub l : List Char), segAt sub l = true ↔ ∃ rest, l = sub ++ rest
  | [], l => by simp [segAt]
  | _ :: _, [] => by simp [segAt]
  | a :: as, b :: bs => by
    simp only [segAt, Bool.and_eq_true, beq_iff_eq, segAt_iff as bs, List.cons_append,
      List.cons.injEq]
    aesop

theorem hasSeg_iff : ∀ (sub l : List Char), hasSeg sub l = true ↔
    ∃ pre post, l = pre ++ sub ++ post
  | sub, [] => by
    simp [hasSeg, List.isEmpty_iff]
  | sub, c :: cs => by
    rw [hasSeg]
    simp [segAt_iff, hasSeg_iff sub cs]
    constructor
    · rintro (⟨rest, h⟩ | ⟨pre, post, h⟩)
      · exact ⟨[], rest, by simpa using h⟩
      · exact ⟨c :: pre, post, by simp [h]⟩
    · rintro ⟨pre, post, h⟩
      cases pre with
      | nil =>
        left
        exact ⟨post, by simpa using h⟩
      | cons d ds =>
        right
        simp at h
        exact ⟨ds, post, h.2⟩

end Scripterio

namespace Scripterio

set_option maxHeartbeats 1000000 in
/-- C4: the deep-equality behind `toBeEqual` holds iff both values are the
same primitive value under value equality (NaN deep-equal to NaN), or both
are composites of the same kind with the same length whose corresponding
element/key pairs are recursively deep-equal; in particular it passes on
NaN vs NaN and on two independently built structurally identical objects,
and fails when a nested element differs. -/
theorem toBeEqual_deep_equality_spec :
    (∀ a b, toBeEqual a b = true ↔ SpecEq a b)
    ∧ toBeEqual (.num .nan) (.num .nan) = true
    ∧ toBeEqual objDemoA objDemoB = true
    ∧ toBeEqual objDemoA objDemoC = false := by
  refine ⟨fun a b => ?_, by simp [toBeEqual, deepEqual],
    by simp [objDemoA, objDemoB, toBeEqual, deepEqual, deepEqualList, deepEqualFields],
    by simp [objDemoA, objDemoC, toBeEqual, deepEqual, deepEqualList, deepEqualFields]⟩
  cases a <;> cases b <;>
    simp [toBeEqual, deepEqual, SpecEq, JsVal.primitive, deepEqualList_iff, deepEqualFields_iff]

set_option maxHeartbeats 1000000 in
/-- C7: `toContain(item)` passes iff the received value is a sequence
containing an element deep-equal to `item`, or a string containing `item`
as a substring; it passes for `[1,2,3]` with `2` and for `"hello world"`
with `"wor"`, and fails otherwise. -/
theorem toContain_characterization :
    (∀ received item, toContain received item = true ↔ SpecContain received item)
    ∧ toContain (.arr [.num (.int 1), .num (.int 2), .num (.int 3)]) (.num (.int 2)) = true
    ∧ toContain (.str "hello world") (.str "wor") = true
    ∧ toContain (.arr [.num (.int 1), .num (.int 2), .num (.int 3)]) (.num (.int 5)) = false
    ∧ toContain (.str "hello world") (.str "xyz") = false := by
  refine ⟨fun received item => ?_, by simp [toContain, deepEqual], by decide,
    by simp [toContain, deepEqual], by decide⟩
  cases received <;> cases item <;>
    simp [toContain, SpecContain, strIncludes, hasSeg_iff, List.any_eq_true]

end Scripterio

namespace Scripterio

/-! ### Execution-engine lemmas -/

mutual
theorem skippedResults_eq {σ : Type} : ∀ (path : List String) (t : Tree σ),
    skippedResults path t
      = (testNames path t).map (fun n => ⟨n, Status.Skipped, none⟩)
  | path, .test n m b => by
    simp [skippedResults, testNames]
  | path, .suite n m ba aa be ae cs => by
    simp [skippedResults, testNames]
    exact skippedResultsList_eq (path ++ [n]) cs

theorem skippedResultsList_eq {σ : Type} : ∀ (path : List String) (cs : List (Tree σ)),
    skippedResultsList path cs
      = (testNamesList path cs).map (fun n => ⟨n, Status.Skipped, none⟩)
  | path, [] => by
    simp [skippedResultsList, testNamesList]
  | path, c :: cs => by
    simp [skippedResultsList, testNamesList]
    rw [skippedResults_eq path c, skippedResultsList_eq path cs]
end

mutual
theorem failedResults_eq {σ : Type} : ∀ (e : Err) (path : List String) (t : Tree σ),
    failedResults e path t
      = (testNames path t).map (fun n => ⟨n, Status.Failed, some e⟩)
  | e, path, .test n m b => by
    simp [failedResults, testNames]
  | e, path, .suite n m ba aa be ae cs => by
    simp [failedResults, testNames]
    exact failedResultsList_eq e (path ++ [n]) cs

theorem failedResultsList_eq {σ : Type} : ∀ (e : Err) (path : List String) (cs : List (Tree σ)),
    failedResultsList e path cs
      = (testNamesList path cs).map (fun n => ⟨n, Status.Failed, some e⟩)
  | e, path, [] => by
    simp [failedResultsList, testNamesList]
  | e, path, c :: cs => by
    simp [failedResultsList, testNamesList]
    rw [failedResults_eq e path c, failedResultsList_eq e path cs]
end

mutual
theorem testNames_length {σ : Type} : ∀ (path : List String) (t : Tree σ),
    (testNames path t).length = countTests t
  | path, .test n m b => by
    simp [testNames, countTests]
  | path, .suite n m ba aa be ae cs => by
    simp [testNames, countTests]
    exact testNamesList_length (path ++ [n]) cs

theorem testNamesList_length {σ : Type} : ∀ (path : List String) (cs : List (Tree σ)),
    (testNamesList path cs).length = countTestsList cs
  | path, [] => by
    simp [testNamesList, countTestsList]
  | path, c :: cs => by
    simp [testNamesList, countTestsList]
    rw [testNames_length path c, testNamesList_length path cs]
end

theorem runList_append {σ : Type} (path : List String) (beStack aeStack : List (Callback σ)) :
    ∀ (l1 l2 : List (Tree σ)) (s : σ),
      runList path beStack aeStack (l1 ++ l2) s
        = ((runList path beStack aeStack l2 (runList path beStack aeStack l1 s).1).1,
           (runList path beStack aeStack l1 s).2
             ++ (runList path beStack aeStack l2 (runList path beStack aeStack l1 s).1).2)
  | [], l2, s => by
    simp [runList]
  | c :: cs, l2, s => by
    simp only [List.cons_append, runList, List.append_eq]
    rw [runList_append path beStack aeStack cs l2 ((runTree path beStack aeStack c s).1)]
    simp [List.append_assoc]

theorem runSeq_ok {σ : Type} : ∀ (l : List (Callback σ)) (s : σ),
    (∀ cb ∈ l, CbOk cb) → runSeq l s = (l.foldl applyCb s, none)
  | [], s, h => by
    simp [runSeq]
  | cb :: rest, s, h => by
    have h1 : (cb s).2 = none := h cb (List.mem_cons_self cb rest) s
    simp only [runSeq, List.foldl_cons]
    rcases hcb : cb s with ⟨s1, e⟩
    rw [hcb] at h1
    subst h1
    simp only []
    rw [runSeq_ok rest s1 (fun c hc => h c (List.mem_cons_of_mem cb hc))]
    simp [applyCb, hcb]

theorem runAll_ok {σ : Type} : ∀ (l : List (Callback σ)) (s : σ),
    (∀ cb ∈ l, CbOk cb) → runAll l s = (l.foldl applyCb s, none)
  | [], s, h => by
    simp [runAll]
  | cb :: rest, s, h => by
    have h1 : (cb s).2 = none := h cb (List.mem_cons_self cb rest) s
    simp only [runAll, List.foldl_cons]
    rw [runAll_ok rest (cb s).1 (fun c hc => h c (List.mem_cons_of_mem cb hc))]
    simp [applyCb, h1]

end Scripterio

namespace Scripterio

theorem runSeq_det {σ : Type} : ∀ (l : List (Callback σ)), (∀ cb ∈ l, ErrDet cb) →
    ∀ (s t : σ), (runSeq l s).2 = (runSeq l t).2
  | [], _, s, t => rfl
  | cb :: rest, h, s, t => by
    have h1 : (cb s).2 = (cb t).2 := h cb (List.mem_cons_self cb rest) s t
    simp only [runSeq]
    rcases hcs : cb s with ⟨s1, e1⟩
    rcases hct : cb t with ⟨t1, e2⟩
    rw [hcs, hct] at h1
    simp only [] at h1
    subst h1
    cases e1 with
    | none =>
      exact runSeq_det rest (fun c hc => h c (List.mem_cons_of_mem cb hc)) s1 t1
    | some e => rfl

theorem runAll_det {σ : Type} : ∀ (l : List (Callback σ)), (∀ cb ∈ l, ErrDet cb) →
    ∀ (s t : σ), (runAll l s).2 = (runAll l t).2
  | [], _, s, t => rfl
  | cb :: rest, h, s, t => by
    have h1 : (cb s).2 = (cb t).2 := h cb (List.mem_cons_self cb rest) s t
    have ih := runAll_det rest (fun c hc => h c (List.mem_cons_of_mem cb hc)) (cb s).1 (cb t).1
    simp only [runAll]
    rw [h1, ih]

theorem runTest_det {σ : Type} (qname : String) (mode : Mode)
    (beStack aeStack : List (Callback σ)) (body : Callback σ)
    (hbe : ∀ cb ∈ beStack, ErrDet cb) (hb : ErrDet body)
    (hae : ∀ cb ∈ aeStack, ErrDet cb) (s t : σ) :
    (runTest qname mode beStack aeStack body s).2
      = (runTest qname mode beStack aeStack body t).2 := by
  cases mode with
  | Skipped => rfl
  | Normal =>
    have hchain : ∀ cb ∈ beStack ++ [body], ErrDet cb := by
      intro c hc
      rcases List.mem_append.mp hc with hmem | hmem
      · exact hbe c hmem
      · rw [List.mem_singleton.mp hmem]
        exact hb
    have hseq := runSeq_det (beStack ++ [body]) hchain s t
    simp only [runTest]
    rcases h1 : runSeq (beStack ++ [body]) s with ⟨s1, e1⟩
    rcases h2 : runSeq (beStack ++ [body]) t with ⟨t1, e2⟩
    rw [h1, h2] at hseq
    simp only [] at hseq
    subst hseq
    have ha : (runAll aeStack s1).2 = (runAll aeStack t1).2 := runAll_det aeStack hae s1 t1
    cases e1 with
    | some e => rfl
    | none =>
      simp only [Option.orElse_none, Option.none_orElse]
      rw [ha]
      cases (runAll aeStack t1).2 <;> rfl

mutual
theorem runTree_det {σ : Type} : ∀ (path : List String) (be ae : List (Callback σ))
    (t : Tree σ), TreeDet t → (∀ cb ∈ be, ErrDet cb) → (∀ cb ∈ ae, ErrDet cb) →
    ∀ (s1 s2 : σ), (runTree path be ae t s1).2 = (runTree path be ae t s2).2
  | path, be, ae, .test n m body, hdet, hbe, hae, s1, s2 => by
    have hb : ErrDet body := by
      simpa [TreeDet] using hdet
    simp only [runTree]
    rw [runTest_det (qualify path n) m be ae body hbe hb hae s1 s2]
  | path, be, ae, .suite n m ba aa beH aeH cs, hdet, hbe, hae, s1, s2 => by
    rw [TreeDet] at hdet
    obtain ⟨hba, haa, hbeH, haeH, hcs⟩ := hdet
    cases m with
    | Skipped => simp [runTree]
    | Normal =>
      have hs := runSeq_det ba hba s1 s2
      simp only [runTree]
      rcases h1 : runSeq ba s1 with ⟨u1, e1⟩
      rcases h2 : runSeq ba s2 with ⟨u2, e2⟩
      rw [h1, h2] at hs
      simp only [] at hs
      subst hs
      cases e1 with
      | some e => rfl
      | none =>
        have hbe2 : ∀ cb ∈ be ++ beH, ErrDet cb := by
          intro c hc
          rcases List.mem_append.mp hc with hmem | hmem
          · exact hbe c hmem
          · exact hbeH c hmem
        have hae2 : ∀ cb ∈ aeH ++ ae, ErrDet cb := by
          intro c hc
          rcases List.mem_append.mp hc with hmem | hmem
          · exact haeH c hmem
          · exact hae c hmem
        have := runList_det (path ++ [n]) (be ++ beH) (aeH ++ ae) cs hcs hbe2 hae2 u1 u2
        simp only [this]

theorem runList_det {σ : Type} : ∀ (path : List String) (be ae : List (Callback σ))
    (cs : List (Tree σ)), TreeDetList cs → (∀ cb ∈ be, ErrDet cb) → (∀ cb ∈ ae, ErrDet cb) →
    ∀ (s1 s2 : σ), (runList path be ae cs s1).2 = (runList path be ae cs s2).2
  | path, be, ae, [], _, _, _, s1, s2 => rfl
  | path, be, ae, c :: cs, hdet, hbe, hae, s1, s2 => by
    rw [TreeDetList] at hdet
    obtain ⟨hc, hcs⟩ := hdet
    simp only [runList]
    rw [runTree_det path be ae c hc hbe hae s1 s2,
      runList_det path be ae cs hcs hbe hae (runTree path be ae c s1).1
        (runTree path be ae c s2).1]
end

mutual
theorem runTree_length {σ : Type} : ∀ (path : List String) (be ae : List (Callback σ))
    (t : Tree σ) (s : σ), ((runTree path be ae t s).2).length = countTests t
  | path, be, ae, .test n m body, s => by
    simp [runTree, countTests]
  | path, be, ae, .suite n m ba aa beH aeH cs, s => by
    cases m with
    | Skipped =>
      simp only [runTree]
      rw [skippedResults_eq]
      simp [testNames_length]
    | Normal =>
      simp only [runTree]
      rcases h1 : runSeq ba s with ⟨s1, e⟩
      cases e with
      | some err =>
        simp only []
        rw [failedResultsList_eq]
        simp [testNamesList_length, countTests]
      | none =>
        simp only []
        rw [runList_length (path ++ [n]) (be ++ beH) (aeH ++ ae) cs s1]
        simp [countTests]

theorem runList_length {σ : Type} : ∀ (path : List String) (be ae : List (Callback σ))
    (cs : List (Tree σ)) (s : σ), ((runList path be ae cs s).2).length = countTestsList cs
  | path, be, ae, [], s => by
    simp [runList, countTestsList]
  | path, be, ae, c :: cs, s => by
    simp only [runList]
    simp [runTree_length path be ae c s,
      runList_length path be ae cs (runTree path be ae c s).1, countTestsList]
end

end Scripterio

namespace Scripterio

/-- Pushing a tag never throws. -/
theorem pushTag_ok (tag : String) : CbOk (pushTag tag) :=
  fun _ => rfl

/-- Pushing a tag has state-independent (absent) error behavior. -/
theorem pushTag_errDet (tag : String) : ErrDet (pushTag tag) :=
  fun _ _ => rfl

/-- Throwing a tagged error has state-independent error behavior. -/
theorem throwTag_errDet (tag : String) : ErrDet (throwTag tag) :=
  fun _ _ => rfl

/-- C1: a suite whose mode is Skipped reports every test in its subtree
as Skipped — regardless of each test's own mode — and runs no hooks: the
fixture state comes back unchanged; concretely, a skipped group
containing a plain test and a skipped test reports both Skipped without
executing anything. -/
theorem skipped_suite_forces_skipped_subtree {σ : Type}
    (path : List String) (beStack aeStack : List (Callback σ)) (name : String)
    (ba aa be ae : List (Callback σ)) (children : List (Tree σ)) (s : σ) :
    runTree path beStack aeStack (.suite name .Skipped ba aa be ae children) s
      = (s, (testNames path (Tree.suite name .Skipped ba aa be ae children)).map
          (fun n => ⟨n, Status.Skipped, none⟩))
    ∧ runRoot (Tree.suite "G" .Skipped [] [] [] []
        [Tree.test "plain" .Normal (pushTag "x"), Tree.test "sk" .Skipped (pushTag "y")]) []
      = ([], [⟨"G > plain", Status.Skipped, none⟩, ⟨"G > sk", Status.Skipped, none⟩]) := by
  constructor
  · simp only [runTree]
    rw [skippedResults_eq]
  · rfl

/-- C2: a Normal-mode test run in a non-skipped path with non-throwing
hooks applies the accumulated ancestor beforeEach hooks
outermost-to-innermost, then the body, then the accumulated afterEach
hooks innermost-to-outermost — the left fold of that chain — and records
exactly one Passed TestResult; the spec §8 Outer/Inner scenario logs
O, I, T, i, o in that order. -/
theorem hook_chain_order_per_test {σ : Type}
    (path : List String) (beStack aeStack : List (Callback σ))
    (name : String) (body : Callback σ) (s : σ)
    (hbe : ∀ cb ∈ beStack, CbOk cb) (hae : ∀ cb ∈ aeStack, CbOk cb) (hb : CbOk body) :
    runTree path beStack aeStack (.test name .Normal body) s
      = (((beStack ++ [body]) ++ aeStack).foldl applyCb s,
         [⟨qualify path name, Status.Passed, none⟩])
    ∧ runRoot hookOrderDemo []
      = (["O", "I", "T", "i", "o"], [⟨"Outer > Inner > t", Status.Passed, none⟩]) := by
  constructor
  · have hchain : ∀ cb ∈ beStack ++ [body], CbOk cb := by
      intro c hc
      rcases List.mem_append.mp hc with hmem | hmem
      · exact hbe c hmem
      · rw [List.mem_singleton.mp hmem]
        exact hb
    simp only [runTree, runTest]
    rw [runSeq_ok (beStack ++ [body]) s hchain, runAll_ok aeStack _ hae]
    simp [List.foldl_append]
  · rfl

/-- Witness for C2 at the concrete Outer/Inner hook stacks. -/
theorem hook_chain_order_per_test_witness :
    runTree [] [pushTag "O", pushTag "I"] [pushTag "i", pushTag "o"]
        (Tree.test "t" Mode.Normal (pushTag "T")) ([] : List String)
      = ((([pushTag "O", pushTag "I"] ++ [pushTag "T"]) ++ [pushTag "i", pushTag "o"]).foldl
           applyCb [],
         [⟨qualify [] "t", Status.Passed, none⟩])
    ∧ runRoot hookOrderDemo []
      = (["O", "I", "T", "i", "o"], [⟨"Outer > Inner > t", Status.Passed, none⟩]) :=
  hook_chain_order_per_test [] [pushTag "O", pushTag "I"] [pushTag "i", pushTag "o"] "t"
    (pushTag "T") []
    (by intro cb hcb; fin_cases hcb <;> exact pushTag_ok _)
    (by intro cb hcb; fin_cases hcb <;> exact pushTag_ok _)
    (pushTag_ok "T")

/-- C3: when a suite's beforeAll chain throws `e`, every test in the
suite's subtree is reported Failed with `e` attached, the children and
remaining beforeAll hooks are not run (the final state is the
post-failure state with only the afterAll cleanup applied), and a
following sibling still executes from the resulting state. -/
theorem beforeAll_failure_fails_subtree {σ : Type}
    (path : List String) (beStack aeStack : List (Callback σ)) (name : String)
    (ba aa be ae : List (Callback σ)) (children rest : List (Tree σ)) (s s0 : σ)
    (e : Err) (hfail : (runSeq ba s).2 = some e) :
    runTree path beStack aeStack (.suite name .Normal ba aa be ae children) s
      = ((runAll aa (runSeq ba s).1).1,
         (testNamesList (path ++ [name]) children).map (fun n => ⟨n, Status.Failed, some e⟩))
    ∧ runList path beStack aeStack (.suite name .Normal ba aa be ae children :: rest) s0
      = ((runList path beStack aeStack rest
            (runTree path beStack aeStack (.suite name .Normal ba aa be ae children) s0).1).1,
         (runTree path beStack aeStack (.suite name .Normal ba aa be ae children) s0).2
           ++ (runList path beStack aeStack rest
                 (runTree path beStack aeStack
                   (.suite name .Normal ba aa be ae children) s0).1).2)
    ∧ runList ([] : List String) [] [] [beforeAllDemo, siblingDemo] []
      = (["boom", "cleanup", "C"],
         [⟨"S > a", Status.Failed, some ⟨"boom"⟩⟩,
          ⟨"S > b", Status.Failed, some ⟨"boom"⟩⟩,
          ⟨"T > c", Status.Passed, none⟩]) := by
  refine ⟨?_, by simp [runList], rfl⟩
  simp only [runTree]
  rcases h1 : runSeq ba s with ⟨s1, e1⟩
  rw [h1] at hfail
  simp only [] at hfail
  subst hfail
  simp only []
  rw [failedResultsList_eq]

/-- Witness for C3 at a concrete throwing beforeAll hook. -/
theorem beforeAll_failure_fails_subtree_witness :
    runTree [] [] [] (Tree.suite "S" Mode.Normal [throwTag "boom"] [] [] []
        [Tree.test "a" Mode.Normal (pushTag "A")]) ([] : List String)
      = ((runAll [] (runSeq [throwTag "boom"] []).1).1,
         (testNamesList ([] ++ ["S"]) [Tree.test "a" Mode.Normal (pushTag "A")]).map
           (fun n => ⟨n, Status.Failed, some ⟨"boom"⟩⟩))
    ∧ runList [] [] [] (Tree.suite "S" Mode.Normal [throwTag "boom"] [] [] []
        [Tree.test "a" Mode.Normal (pushTag "A")] :: [siblingDemo]) ([] : List String)
      = ((runList [] [] [] [siblingDemo]
            (runTree [] [] [] (Tree.suite "S" Mode.Normal [throwTag "boom"] [] [] []
              [Tree.test "a" Mode.Normal (pushTag "A")]) []).1).1,
         (runTree [] [] [] (Tree.suite "S" Mode.Normal [throwTag "boom"] [] [] []
            [Tree.test "a" Mode.Normal (pushTag "A")]) []).2
           ++ (runList [] [] [] [siblingDemo]
                 (runTree [] [] [] (Tree.suite "S" Mode.Normal [throwTag "boom"] [] [] []
                   [Tree.test "a" Mode.Normal (pushTag "A")]) []).1).2)
    ∧ runList ([] : List String) [] [] [beforeAllDemo, siblingDemo] []
      = (["boom", "cleanup", "C"],
         [⟨"S > a", Status.Failed, some ⟨"boom"⟩⟩,
          ⟨"S > b", Status.Failed, some ⟨"boom"⟩⟩,
          ⟨"T > c", Status.Passed, none⟩]) :=
  beforeAll_failure_fails_subtree [] [] [] "S" [throwTag "boom"] [] [] []
    [Tree.test "a" Mode.Normal (pushTag "A")] [siblingDemo] [] [] ⟨"boom"⟩ rfl

/-- C5: execution is depth-first in declaration order: the results of a
children list `l1 ++ l2` are the results of `l1` (from the incoming
state) followed by the results of `l2` (from `l1`'s final state); in
particular for sibling suites A declared before B, every TestResult from
A's subtree precedes every TestResult from B's. -/
theorem declaration_order_preserved {σ : Type} (path : List String)
    (beStack aeStack : List (Callback σ)) (A B : Tree σ) (s : σ) :
    (runList path beStack aeStack [A, B] s).2
      = (runTree path beStack aeStack A s).2
          ++ (runTree path beStack aeStack B (runTree path beStack aeStack A s).1).2
    ∧ ∀ (l1 l2 : List (Tree σ)),
        runList path beStack aeStack (l1 ++ l2) s
          = ((runList path beStack aeStack l2 (runList path beStack aeStack l1 s).1).1,
             (runList path beStack aeStack l1 s).2
               ++ (runList path beStack aeStack l2 (runList path beStack aeStack l1 s).1).2) := by
  constructor
  · simp [runList]
  · intro l1 l2
    exact runList_append path beStack aeStack l1 l2 s

/-- C6: per-test errors are caught and converted into exactly one
TestResult per test — every subtree yields as many results as it has
tests, so the run never aborts — and concretely a throwing test is
recorded Failed while its sibling test and its cousin suite still run
and pass. -/
theorem per_test_failure_isolation :
    (∀ (σ : Type) (path : List String) (beStack aeStack : List (Callback σ))
        (t : Tree σ) (s : σ),
        ((runTree path beStack aeStack t s).2).length = countTests t)
    ∧ runRoot isolationDemo []
      = (["boom", "G", "C"],
         [⟨"root > bad", Status.Failed, some ⟨"boom"⟩⟩,
          ⟨"root > good", Status.Passed, none⟩,
          ⟨"root > cousin > c", Status.Passed, none⟩]) :=
  ⟨fun _ path be ae t s => runTree_length path be ae t s, rfl⟩

/-- C8: neither `describe.skip` nor `test.skip` ever invokes a callback
argument: with the spec-modelled `core.skip`, both register exactly one
node with mode = Skipped on the current suite, and the outcome is the
same for every options value and every callback value supplied. -/
theorem skip_registers_without_invoking_callback {σ α β γ δ : Type}
    (name : String) (o : α) (cb : β) (o2 : γ) (cb2 : δ) (st : RegState σ) :
    describeSkip coreSkip name o cb st
      = { st with cur := { st.cur with
            children := st.cur.children
              ++ [Tree.test name Mode.Skipped (fun s => (s, none))] } }
    ∧ testSkip coreSkip name o2 cb2 st = describeSkip coreSkip name o cb st :=
  ⟨rfl, rfl⟩

/-- C9: running the identical declared tree twice with no shared mutable
fixture influence (every callback's throw/reject outcome independent of
the incoming state) produces identical TestResult sequences — results do
not depend on the initial state, and in particular a second run started
from the first run's final state reproduces the first run's results. -/
theorem run_results_deterministic {σ : Type} (t : Tree σ) (s1 s2 s : σ)
    (hdet : TreeDet t) :
    (runRoot t s1).2 = (runRoot t s2).2
    ∧ (runRoot t (runRoot t s).1).2 = (runRoot t s).2 := by
  have hemp : ∀ cb ∈ ([] : List (Callback σ)), ErrDet cb := by
    intro cb hcb
    exact absurd hcb (List.not_mem_nil cb)
  exact ⟨runTree_det [] [] [] t hdet hemp hemp s1 s2,
    runTree_det [] [] [] t hdet hemp hemp (runRoot t s).1 s⟩

/-- Witness for C9 at a concrete deterministic tree. -/
theorem run_results_deterministic_witness :
    (runRoot detDemo ["seed"]).2 = (runRoot detDemo []).2
    ∧ (runRoot detDemo (runRoot detDemo []).1).2 = (runRoot detDemo []).2 :=
  run_results_deterministic detDemo ["seed"] [] []
    (by
      have hone : ∀ (tag : String), ∀ cb ∈ [pushTag tag], ErrDet cb := by
        intro tag cb hcb
        rw [List.mem_singleton.mp hcb]
        exact pushTag_errDet tag
      simp only [detDemo, TreeDet, TreeDetList]
      exact ⟨hone "BA", hone "AA", hone "BE", hone "AE",
        pushTag_errDet "T", throwTag_errDet "boom", pushTag_errDet "never", trivial⟩)

/-- C10: the public wrappers `describe.skip` and `test.skip` are
extensionally equal operations: for every underlying core skip
implementation each passes only the name to it, so the two registrations
are indistinguishable at the public boundary and any options or callback
arguments are silently discarded. -/
theorem skip_wrappers_extensionally_equal {ρ α β γ δ : Type}
    (coreSkipOp : String → ρ → ρ) (name : String) (o : α) (b : β) (o2 : γ) (b2 : δ)
    (st : ρ) :
    describeSkip coreSkipOp name o b st = coreSkipOp name st
    ∧ testSkip coreSkipOp name o2 b2 st = coreSkipOp name st
    ∧ describeSkip coreSkipOp name o b st = testSkip coreSkipOp name o2 b2 st :=
  ⟨rfl, rfl, rfl⟩

end Scripterio
